import Mathlib

/-!
Verification of the concurrency-control core of the convex-duckdb-sidecar
service: the admission queue (src/lib/query_queue.ts) and the DuckDB
instance pool (src/lib/pool.ts), shallowly embedded as pure
state-transition functions.  Timestamps (Date.now()) are passed in as
explicit Nat arguments; the asynchronous factory (createDuckDB) is
modelled by a Bool success flag plus the handle id it would produce.
-/

namespace Sidecar

/-! ### Admission queue (src/lib/query_queue.ts)

Module state: running counter plus the waiting queue.  The queue is kept
in JS-array order: index 0 is the front (oldest), push appends at the
tail, shift removes the front.  Queue items are reduced to task
identifiers (Nat); the task body, resolve/reject continuations and the
enqueuedAtMs timestamp play no role in the admission decisions the
claims are about. -/

structure QueueState where
  maxConcurrent : Nat
  maxQueue : Nat
  running : Nat
  queue : List Nat
  deriving Repr, DecidableEq

/-- The `while (running < MAX_CONCURRENT && queue.length > 0)` loop of
pumpQueue: repeatedly shift the front item and increment running,
accumulating the dispatched task ids in order. -/
def pumpGo (maxConcurrent : Nat) : Nat → List Nat → List Nat → Nat × List Nat × List Nat
  | running, [], acc => (running, [], acc)
  | running, t :: rest, acc =>
    if running < maxConcurrent then
      pumpGo maxConcurrent (running + 1) rest (acc ++ [t])
    else (running, t :: rest, acc)

/-- pumpQueue: returns the updated state and the list of task ids
dispatched by this pump, in dispatch order. -/
def pump (s : QueueState) : QueueState × List Nat :=
  let r := pumpGo s.maxConcurrent s.running s.queue []
  ({ s with running := r.1, queue := r.2.1 }, r.2.2)

inductive SubmitOutcome where
  /-- the fast path: the task is invoked immediately -/
  | runNow
  /-- the task was appended to the wait queue -/
  | enqueued
  /-- SidecarQueueSaturatedError was thrown synchronously -/
  | saturated
  deriving Repr, DecidableEq

/-- The synchronous prefix of runWithQueryQueue: the admission decision
taken before any suspension point.  Mirrors the source:
first `running < MAX_CONCURRENT` (run now), then
`queue.length >= MAX_QUEUE` (throw), else push the item and call
pumpQueue (a no-op there, since running ≥ MAX_CONCURRENT). -/
def submitSync (s : QueueState) (taskId : Nat) : SubmitOutcome × QueueState :=
  if s.running < s.maxConcurrent then
    (.runNow, { s with running := s.running + 1 })
  else if s.queue.length ≥ s.maxQueue then
    (.saturated, s)
  else
    (.enqueued, (pump { s with queue := s.queue ++ [taskId] }).1)

/-- The `.finally` handler of a dispatched or fast-path task:
`running -= 1; pumpQueue();`.  Returns the tasks dispatched by the pump. -/
def slotFree (s : QueueState) : QueueState × List Nat :=
  pump { s with running := s.running - 1 }

/-- k concurrency slots freeing one at a time; accumulates every task id
dispatched across the k completions, in dispatch order. -/
def freeSlots : Nat → QueueState → QueueState × List Nat
  | 0, s => (s, [])
  | k + 1, s =>
    let r := slotFree s
    let r2 := freeSlots k r.1
    (r2.1, r.2 ++ r2.2)

theorem pumpGo_of_not_lt (maxConcurrent running : Nat) (q acc : List Nat)
    (h : ¬ running < maxConcurrent) :
    pumpGo maxConcurrent running q acc = (running, q, acc) := by
  cases q with
  | nil => rfl
  | cons t rest => simp [pumpGo, h]

/-- Claim C1: when running == maxConcurrent and queue.length ==
maxQueueDepth, submit fails synchronously with QueueSaturated: the state
is returned unchanged (nothing enqueued, running untouched) and the
outcome is neither runNow nor enqueued, so the task is never invoked. -/
theorem submit_saturated (s : QueueState) (taskId : Nat)
    (hr : s.running = s.maxConcurrent) (hq : s.queue.length = s.maxQueue) :
    submitSync s taskId = (.saturated, s) := by
  have h1 : ¬ s.running < s.maxConcurrent := by omega
  have h2 : s.queue.length ≥ s.maxQueue := by omega
  simp [submitSync, h1, h2]

/-- Witness for C1 at a concrete saturated state. -/
theorem submit_saturated_witness :
    let s : QueueState := { maxConcurrent := 2, maxQueue := 1, running := 2, queue := [7] }
    s.running = s.maxConcurrent ∧ s.queue.length = s.maxQueue ∧
      submitSync s 9 = (.saturated, s) :=
  ⟨rfl, rfl, submit_saturated _ 9 rfl rfl⟩

/-- Claim C4: starting from a fully busy queue (running = maxConcurrent)
with waiters q, freeing k ≤ q.length slots one at a time dispatches
exactly the first k waiters in their enqueue order, leaving the rest
queued and running back at maxConcurrent. -/
theorem fifo_dispatch (s : QueueState) (k : Nat)
    (hmax : 0 < s.maxConcurrent) (hr : s.running = s.maxConcurrent)
    (hk : k ≤ s.queue.length) :
    (freeSlots k s).2 = s.queue.take k ∧
      (freeSlots k s).1.queue = s.queue.drop k ∧
      (freeSlots k s).1.running = s.maxConcurrent := by
  induction k generalizing s with
  | zero => simp [freeSlots, hr]
  | succ k ih =>
    obtain ⟨t, rest, hq⟩ : ∃ t rest, s.queue = t :: rest := by
      cases hcq : s.queue with
      | nil => rw [hcq] at hk; simp at hk
      | cons t rest => exact ⟨t, rest, rfl⟩
    have hlt : s.maxConcurrent - 1 < s.maxConcurrent := by omega
    have hnlt : ¬ s.maxConcurrent - 1 + 1 < s.maxConcurrent := by omega
    have hfree : slotFree s =
        ({ s with running := s.maxConcurrent, queue := rest }, [t]) := by
      simp [slotFree, pump, hq, hr, pumpGo, hlt, pumpGo_of_not_lt _ _ _ _ hnlt]
      omega
    have hk2 : k ≤ rest.length := by
      rw [hq] at hk; simpa using Nat.lt_succ_iff.mp (Nat.lt_of_lt_of_le (Nat.lt_succ_self k) (by simpa using hk))
    have ih2 := ih { s with running := s.maxConcurrent, queue := rest }
      (by simpa using hmax) (by simp) (by simpa using hk2)
    refine ⟨?_, ?_, ?_⟩
    · show (freeSlots (k + 1) s).2 = s.queue.take (k + 1)
      simp only [freeSlots, hfree, hq, List.take_succ_cons]
      simpa using ih2.1
    · show (freeSlots (k + 1) s).1.queue = s.queue.drop (k + 1)
      simp only [freeSlots, hfree, hq, List.drop_succ_cons]
      simpa using ih2.2.1
    · simp only [freeSlots, hfree]
      simpa using ih2.2.2

/-- Witness for C4: three waiters, two slots freed, dispatch order is
the enqueue order of the first two. -/
theorem fifo_dispatch_witness :
    let s : QueueState := { maxConcurrent := 2, maxQueue := 5, running := 2, queue := [10, 11, 12] }
    0 < s.maxConcurrent ∧ s.running = s.maxConcurrent ∧ 2 ≤ s.queue.length ∧
      (freeSlots 2 s).2 = [10, 11] ∧ (freeSlots 2 s).1.queue = [12] ∧
      (freeSlots 2 s).1.running = 2 :=
  ⟨by decide, rfl, by decide,
    (fifo_dispatch _ 2 (by decide) rfl (by decide)).1,
    (fifo_dispatch _ 2 (by decide) rfl (by decide)).2.1,
    (fifo_dispatch _ 2 (by decide) rfl (by decide)).2.2⟩

/-! ### Instance pool (src/lib/pool.ts)

DuckDB handles are reduced to Nat identifiers.  The idle array is kept
NEWEST-FIRST, mirroring the JS array seen from its pop end:
JS `idle.push(x)` is `x :: idle`, JS `idle.pop()` takes the head, and
JS `idle.shift()` (used only by the trim loop in release) removes the
LAST element of our list.  The creationTimes Map is an association list
with distinct keys; Map.set is modelled as delete-then-cons. -/

structure PooledInstance where
  db : Nat
  createdAt : Nat
  deriving Repr, DecidableEq

structure PoolState where
  minSize : Nat
  maxSize : Nat
  recycleTTLMs : Nat
  idle : List PooledInstance
  activeCount : Int
  creationTimes : List (Nat × Nat)
  totalCreated : Nat
  totalRecycled : Nat
  closed : Bool
  deriving Repr, DecidableEq

/-- Map.get: the value of the first (only) entry with the given key. -/
def ctGet (m : List (Nat × Nat)) (k : Nat) : Option Nat :=
  (m.find? (fun p => p.1 == k)).map Prod.snd

/-- Map.delete. -/
def ctErase (m : List (Nat × Nat)) (k : Nat) : List (Nat × Nat) :=
  m.filter (fun p => p.1 != k)

/-- Map.set. -/
def ctSet (m : List (Nat × Nat)) (k v : Nat) : List (Nat × Nat) :=
  (k, v) :: ctErase m k

/-- isExpired: `Date.now() - inst.createdAt > this.recycleTTLMs`.
Nat truncated subtraction agrees with the JS number subtraction here:
when createdAt > now both sides of the comparison are non-positive and
the strict comparison against recycleTTLMs ≥ 0 is false either way. -/
def isExpired (recycleTTLMs now : Nat) (inst : PooledInstance) : Bool :=
  recycleTTLMs < now - inst.createdAt

/-- The `while (this.idle.length > 0)` loop of acquire: pop from the
stack top, destroy (and count) expired instances, stop at the first
fresh one.  Returns (found instance, remaining idle, recycled count). -/
def acquireFromIdle (recycleTTLMs now : Nat) :
    List PooledInstance → Nat → Option PooledInstance × List PooledInstance × Nat
  | [], recycled => (none, [], recycled)
  | inst :: rest, recycled =>
    if isExpired recycleTTLMs now inst then
      acquireFromIdle recycleTTLMs now rest (recycled + 1)
    else (some inst, rest, recycled)

inductive AcquireResult where
  /-- acquire resolved with this handle -/
  | ok (db : Nat)
  /-- threw `Pool is closed` -/
  | poolClosed
  /-- threw `Pool exhausted (active: …, max: …)` -/
  | poolExhausted
  /-- createDuckDB (the factory) rejected; the error propagates -/
  | creationFailed
  deriving Repr, DecidableEq

/-- DuckDBPool.acquire.  `now` stands for the Date.now() readings of the
call, `freshDb` is the handle the factory would create and `factoryOk`
whether the factory succeeds.  Expired instances destroyed while
scanning the idle stack have already updated totalRecycled by the time
the factory branch is reached, exactly as in the source. -/
def acquire (s : PoolState) (now freshDb : Nat) (factoryOk : Bool) :
    AcquireResult × PoolState :=
  if s.closed then (.poolClosed, s)
  else
    match acquireFromIdle s.recycleTTLMs now s.idle 0 with
    | (some inst, rest, recycled) =>
      (.ok inst.db,
        { s with
          idle := rest
          totalRecycled := s.totalRecycled + recycled
          activeCount := s.activeCount + 1
          creationTimes := ctSet s.creationTimes inst.db inst.createdAt })
    | (none, _, recycled) =>
      if s.activeCount < (s.maxSize : Int) then
        if factoryOk then
          (.ok freshDb,
            { s with
              idle := []
              totalRecycled := s.totalRecycled + recycled
              totalCreated := s.totalCreated + 1
              activeCount := s.activeCount + 1
              creationTimes := ctSet s.creationTimes freshDb now })
        else
          (.creationFailed,
            { s with idle := [], totalRecycled := s.totalRecycled + recycled })
      else
        (.poolExhausted,
          { s with idle := [], totalRecycled := s.totalRecycled + recycled })

/-- DuckDBPool.release.  Decrements activeCount unconditionally, reads
the recorded creation time (defaulting to Date.now() on a miss), then
either destroys the instance (closed pool or unhealthy) or pushes it to
idle and trims idle down to minSize by shifting, i.e. by dropping the
OLDEST entries (the tail of our newest-first list). -/
def release (s : PoolState) (db : Nat) (healthy : Bool) (now : Nat) : PoolState :=
  let createdAt := (ctGet s.creationTimes db).getD now
  let s1 := { s with
    activeCount := s.activeCount - 1
    creationTimes := ctErase s.creationTimes db }
  if s1.closed || !healthy then
    { s1 with totalRecycled := if !healthy then s1.totalRecycled + 1 else s1.totalRecycled }
  else
    let pushed := { db := db, createdAt := createdAt } :: s1.idle
    { s1 with
      idle := pushed.take s1.minSize
      totalRecycled := s1.totalRecycled + (pushed.length - s1.minSize) }

/-- DuckDBPool.drain: mark closed, destroy and clear all idle. -/
def drain (s : PoolState) : PoolState :=
  { s with closed := true, idle := [] }

/-- The idle stack produced by warmup, newest-first: instance base + i
is pushed as creation i completes, so the head is the last one. -/
def warmupIdle (now base : Nat) : Nat → List PooledInstance
  | 0 => []
  | n + 1 => { db := base + n, createdAt := now } :: warmupIdle now base n

/-- DuckDBPool.warmup: create minSize instances (handles base,
base+1, …) and push each onto idle; totalCreated grows by minSize. -/
def warmup (s : PoolState) (now base : Nat) : PoolState :=
  { s with
    idle := warmupIdle now base s.minSize ++ s.idle
    totalCreated := s.totalCreated + s.minSize }

/-- The pool state produced by the constructor. -/
def mkPool (minSize maxSize recycleTTLMs : Nat) : PoolState :=
  { minSize := minSize, maxSize := maxSize, recycleTTLMs := recycleTTLMs
    idle := [], activeCount := 0, creationTimes := []
    totalCreated := 0, totalRecycled := 0, closed := false }

/-- One observable pool operation. -/
inductive PoolOp where
  | warmupOp (now base : Nat)
  | acquireOp (now freshDb : Nat) (factoryOk : Bool)
  | releaseOp (db : Nat) (healthy : Bool) (now : Nat)
  | drainOp
  deriving Repr, DecidableEq

def step (s : PoolState) : PoolOp → PoolState
  | .warmupOp now base => warmup s now base
  | .acquireOp now freshDb factoryOk => (acquire s now freshDb factoryOk).2
  | .releaseOp db healthy now => release s db healthy now
  | .drainOp => drain s

def run (s : PoolState) (ops : List PoolOp) : PoolState :=
  ops.foldl step s

/-- The db identifiers currently in the idle set. -/
def idleDbs (s : PoolState) : List Nat :=
  s.idle.map PooledInstance.db

/-! ### Basic lemmas about the creationTimes map and the idle scan -/

theorem ctGet_ctSet_self (m : List (Nat × Nat)) (k v : Nat) :
    ctGet (ctSet m k v) k = some v := by
  simp [ctGet, ctSet, List.find?]

theorem acquireFromIdle_expired_init (recycleTTLMs now : Nat)
    (pre : List PooledInstance) (inst : PooledInstance) (rest : List PooledInstance)
    (c0 : Nat)
    (hpre : ∀ i ∈ pre, isExpired recycleTTLMs now i = true)
    (hinst : isExpired recycleTTLMs now inst = false) :
    acquireFromIdle recycleTTLMs now (pre ++ inst :: rest) c0 =
      (some inst, rest, c0 + pre.length) := by
  induction pre generalizing c0 with
  | nil => simp [acquireFromIdle, hinst]
  | cons a pre ih =>
    have ha := hpre a (by simp)
    have ih2 := ih (c0 + 1) (fun i hi => hpre i (by simp [hi]))
    rw [List.cons_append, acquireFromIdle, if_pos ha, ih2]
    simp only [Prod.mk.injEq, List.length_cons, true_and]
    omega

theorem acquireFromIdle_all_expired (recycleTTLMs now : Nat)
    (l : List PooledInstance) (c0 : Nat)
    (hall : ∀ i ∈ l, isExpired recycleTTLMs now i = true) :
    acquireFromIdle recycleTTLMs now l c0 = (none, [], c0 + l.length) := by
  induction l generalizing c0 with
  | nil => simp [acquireFromIdle]
  | cons a l ih =>
    have ih2 := ih (c0 + 1) (fun i hi => hall i (by simp [hi]))
    rw [acquireFromIdle, if_pos (hall a (by simp)), ih2]
    simp only [Prod.mk.injEq, List.length_cons, true_and]
    omega

theorem acquireFromIdle_some (recycleTTLMs now : Nat) (l : List PooledInstance)
    (c0 : Nat) (inst : PooledInstance) (rest : List PooledInstance) (c : Nat)
    (h : acquireFromIdle recycleTTLMs now l c0 = (some inst, rest, c)) :
    (inst :: rest) <:+ l ∧ isExpired recycleTTLMs now inst = false := by
  induction l generalizing c0 with
  | nil => simp [acquireFromIdle] at h
  | cons a l ih =>
    by_cases ha : isExpired recycleTTLMs now a = true
    · rw [acquireFromIdle, if_pos ha] at h
      obtain ⟨hs, hf⟩ := ih (c0 + 1) h
      exact ⟨hs.trans (List.suffix_cons a l), hf⟩
    · rw [acquireFromIdle, if_neg ha] at h
      have h' : a = inst ∧ l = rest := by
        simp [Prod.ext_iff] at h
        exact ⟨h.1, h.2.1⟩
      obtain ⟨rfl, rfl⟩ := h'
      exact ⟨List.suffix_refl _, Bool.eq_false_iff.mpr ha⟩

theorem acquireFromIdle_none (recycleTTLMs now : Nat) (l : List PooledInstance)
    (c0 : Nat) (rest : List PooledInstance) (c : Nat)
    (h : acquireFromIdle recycleTTLMs now l c0 = (none, rest, c)) :
    rest = [] := by
  induction l generalizing c0 with
  | nil => simpa [acquireFromIdle] using congrArg (fun p => p.2.1) h
  | cons a l ih =>
    by_cases ha : isExpired recycleTTLMs now a = true
    · rw [acquireFromIdle, if_pos ha] at h
      exact ih (c0 + 1) h
    · rw [acquireFromIdle, if_neg ha] at h
      simp at h

/-! ### Claims about the pool -/

/-- A pool holding one idle instance created at t0 = 10, with
recycleTTLMs = 5. -/
def ttlBoundaryPool : PoolState :=
  { mkPool 1 1 5 with idle := [{ db := 3, createdAt := 10 }], totalCreated := 1 }

/-- Counterexample to claim C3 as stated: at t = t0 + recycleTTL exactly
(now = 15 = 10 + 5, so t ≥ t0 + recycleTTL holds), acquire still
returns the instance created at t0 = 10, because the code's expiry test
`now - createdAt > recycleTTLMs` is strict. -/
theorem acquire_returns_at_exact_ttl :
    ttlBoundaryPool.idle = [{ db := 3, createdAt := 10 }] ∧
      10 + ttlBoundaryPool.recycleTTLMs ≤ 15 ∧
      (acquire ttlBoundaryPool 15 99 true).1 = .ok 3 := by decide

/-- Claim C3 (amended: strict inequality): whenever acquire resolves
with a handle, the creation time recorded for that handle satisfies
now - createdAt ≤ recycleTTLMs, i.e. an instance is never returned at
any time strictly later than createdAt + recycleTTL. -/
theorem ttl_freshness (s : PoolState) (now freshDb : Nat) (factoryOk : Bool)
    (db : Nat) (s2 : PoolState)
    (hacq : acquire s now freshDb factoryOk = (.ok db, s2)) :
    ∃ c, ctGet s2.creationTimes db = some c ∧ now - c ≤ s.recycleTTLMs := by
  by_cases hc : s.closed = true
  · rw [acquire, if_pos hc] at hacq
    simp at hacq
  · rw [acquire, if_neg hc] at hacq
    rcases hAF : acquireFromIdle s.recycleTTLMs now s.idle 0 with ⟨o, rest, rc⟩
    rw [hAF] at hacq
    cases o with
    | some inst =>
      have hfresh := (acquireFromIdle_some _ _ _ _ _ _ _ hAF).2
      simp only [Prod.mk.injEq, AcquireResult.ok.injEq] at hacq
      obtain ⟨rfl, rfl⟩ := hacq
      refine ⟨inst.createdAt, ?_, ?_⟩
      · exact ctGet_ctSet_self ..
      · simp [isExpired] at hfresh
        omega
    | none =>
      dsimp only at hacq
      by_cases hcap : s.activeCount < (s.maxSize : Int)
      · rw [if_pos hcap] at hacq
        cases factoryOk with
        | false => simp at hacq
        | true =>
          simp only [Prod.mk.injEq, AcquireResult.ok.injEq] at hacq
          obtain ⟨rfl, rfl⟩ := hacq
          exact ⟨now, ctGet_ctSet_self .., by omega⟩
      · rw [if_neg hcap] at hacq
        simp at hacq

/-- Witness for C3 (amended): acquiring from ttlBoundaryPool at now = 12
returns handle 3 with a fresh-enough recorded creation time. -/
theorem ttl_freshness_witness :
    ∃ c, ctGet (acquire ttlBoundaryPool 12 99 true).2.creationTimes 3 = some c ∧
      12 - c ≤ ttlBoundaryPool.recycleTTLMs :=
  ttl_freshness ttlBoundaryPool 12 99 true 3 (acquire ttlBoundaryPool 12 99 true).2
    (by decide)

theorem step_preserves_closed (s : PoolState) (op : PoolOp) (h : s.closed = true) :
    (step s op).closed = true := by
  cases op with
  | warmupOp now base => simpa [step, warmup] using h
  | acquireOp now freshDb factoryOk => simp [step, acquire, h]
  | releaseOp db healthy now => simp [step, release, h]
  | drainOp => simp [step, drain]

theorem run_preserves_closed (s : PoolState) (ops : List PoolOp) (h : s.closed = true) :
    (run s ops).closed = true := by
  induction ops generalizing s with
  | nil => simpa [run] using h
  | cons op ops ih => exact ih (step s op) (step_preserves_closed s op h)

/-- Claim C6: after drain() the idle set is empty, and every later
acquire — no matter which pool operations happen in between — fails
with the closed-pool error instead of returning an instance. -/
theorem drain_finality (s : PoolState) (ops : List PoolOp) (now freshDb : Nat)
    (factoryOk : Bool) :
    (drain s).idle = [] ∧
      (acquire (run (drain s) ops) now freshDb factoryOk).1 = .poolClosed := by
  refine ⟨rfl, ?_⟩
  have h := run_preserves_closed (drain s) ops (by simp [drain])
  simp [acquire, h]

/-- Claim C7: on an open pool, acquire pops the idle stack newest-first,
destroying (and counting) the expired prefix and returning the first
fresh instance with activeCount incremented by one; when every idle
instance is expired (or idle is empty) it creates a fresh instance via
the factory provided activeCount < maxSize, and fails with
PoolExhausted otherwise, leaving activeCount unchanged. -/
theorem acquire_spec (s : PoolState) (now freshDb : Nat) (factoryOk : Bool)
    (hopen : s.closed = false) :
    (∀ pre inst rest,
        s.idle = pre ++ inst :: rest →
        (∀ i ∈ pre, isExpired s.recycleTTLMs now i = true) →
        isExpired s.recycleTTLMs now inst = false →
        acquire s now freshDb factoryOk =
          (.ok inst.db,
            { s with
              idle := rest
              totalRecycled := s.totalRecycled + pre.length
              activeCount := s.activeCount + 1
              creationTimes := ctSet s.creationTimes inst.db inst.createdAt })) ∧
    ((∀ i ∈ s.idle, isExpired s.recycleTTLMs now i = true) →
        s.activeCount < (s.maxSize : Int) →
        acquire s now freshDb true =
          (.ok freshDb,
            { s with
              idle := []
              totalRecycled := s.totalRecycled + s.idle.length
              totalCreated := s.totalCreated + 1
              activeCount := s.activeCount + 1
              creationTimes := ctSet s.creationTimes freshDb now })) ∧
    ((∀ i ∈ s.idle, isExpired s.recycleTTLMs now i = true) →
        ¬ s.activeCount < (s.maxSize : Int) →
        acquire s now freshDb factoryOk =
          (.poolExhausted,
            { s with idle := [], totalRecycled := s.totalRecycled + s.idle.length })) := by
  refine ⟨?_, ?_, ?_⟩
  · intro pre inst rest hidle hpre hinst
    have hAF := acquireFromIdle_expired_init s.recycleTTLMs now pre inst rest 0 hpre hinst
    rw [acquire, if_neg (by simp [hopen]), hidle, hAF]
    simp
  · intro hall hcap
    have hAF := acquireFromIdle_all_expired s.recycleTTLMs now s.idle 0 hall
    rw [acquire, if_neg (by simp [hopen]), hAF]
    dsimp only
    rw [if_pos hcap]
    simp
  · intro hall hcap
    have hAF := acquireFromIdle_all_expired s.recycleTTLMs now s.idle 0 hall
    rw [acquire, if_neg (by simp [hopen]), hAF]
    dsimp only
    rw [if_neg hcap]
    simp

/-- A pool with one expired (db 5) and one fresh (db 4) idle instance,
one checked-out handle (db 9). -/
def demoPool : PoolState :=
  { mkPool 2 3 100 with
    idle := [{ db := 5, createdAt := 0 }, { db := 4, createdAt := 150 }]
    activeCount := 1
    creationTimes := [(9, 160)]
    totalCreated := 3 }

/-- Witness for C7: acquiring from demoPool at now = 200 destroys the
expired db 5 and returns the fresh db 4. -/
theorem acquire_spec_witness :
    acquire demoPool 200 99 true =
      (.ok 4,
        { demoPool with
          idle := []
          totalRecycled := 1
          activeCount := 2
          creationTimes := ctSet demoPool.creationTimes 4 150 }) :=
  (acquire_spec demoPool 200 99 true rfl).1 [{ db := 5, createdAt := 0 }]
    { db := 4, createdAt := 150 } [] rfl (by decide) (by decide)

/-- Claim C8: a healthy release on an open pool pushes the instance
(with its recorded creation time) onto the idle stack and trims idle to
at most minSize entries by dropping the oldest ones (the tail of the
newest-first list, i.e. the JS shift end); idle.length ≤ minSize holds
when release returns. -/
theorem release_healthy_spec (s : PoolState) (db now : Nat)
    (hopen : s.closed = false) :
    release s db true now =
      { s with
        activeCount := s.activeCount - 1
        creationTimes := ctErase s.creationTimes db
        idle := (({ db := db, createdAt := (ctGet s.creationTimes db).getD now } :
            PooledInstance) :: s.idle).take s.minSize
        totalRecycled := s.totalRecycled + (s.idle.length + 1 - s.minSize) } ∧
      (release s db true now).idle.length ≤ s.minSize := by
  have h1 : release s db true now =
      { s with
        activeCount := s.activeCount - 1
        creationTimes := ctErase s.creationTimes db
        idle := (({ db := db, createdAt := (ctGet s.creationTimes db).getD now } :
            PooledInstance) :: s.idle).take s.minSize
        totalRecycled := s.totalRecycled + (s.idle.length + 1 - s.minSize) } := by
    simp [release, hopen]
  refine ⟨h1, ?_⟩
  rw [h1]
  simp [List.length_take]

/-- Witness for C8: releasing handle 9 back into demoPool trims the
oldest idle instance (db 4, at the shift end) and keeps idle at
minSize = 2. -/
theorem release_healthy_spec_witness :
    release demoPool 9 true 200 =
      { demoPool with
        activeCount := 0
        creationTimes := ctErase demoPool.creationTimes 9
        idle := [{ db := 9, createdAt := 160 }, { db := 5, createdAt := 0 }]
        totalRecycled := 1 } ∧
      (release demoPool 9 true 200).idle.length ≤ demoPool.minSize := by
  have h := release_healthy_spec demoPool 9 200 rfl
  exact ⟨by rw [h.1]; decide, h.2⟩

/-- Claim C9: if the factory fails during acquire, the error propagates
as the result and the pool state equals the state immediately before
the factory was invoked: activeCount, totalCreated and the creation-time
map are untouched, and totalRecycled reflects only the expired idle
instances already destroyed while scanning the stack. -/
theorem factory_failure_atomic (s : PoolState) (now freshDb : Nat)
    (hopen : s.closed = false)
    (hall : ∀ i ∈ s.idle, isExpired s.recycleTTLMs now i = true)
    (hcap : s.activeCount < (s.maxSize : Int)) :
    acquire s now freshDb false =
      (.creationFailed,
        { s with idle := [], totalRecycled := s.totalRecycled + s.idle.length }) ∧
      (acquire s now freshDb false).2.activeCount = s.activeCount ∧
      (acquire s now freshDb false).2.totalCreated = s.totalCreated ∧
      (acquire s now freshDb false).2.creationTimes = s.creationTimes := by
  have hAF := acquireFromIdle_all_expired s.recycleTTLMs now s.idle 0 hall
  have h1 : acquire s now freshDb false =
      (.creationFailed,
        { s with idle := [], totalRecycled := s.totalRecycled + s.idle.length }) := by
    rw [acquire, if_neg (by simp [hopen]), hAF]
    dsimp only
    rw [if_pos hcap]
    simp
  exact ⟨h1, by rw [h1], by rw [h1], by rw [h1]⟩

/-- A pool whose only idle instance is long expired and which has spare
capacity, so acquire reaches the factory. -/
def stalePool : PoolState :=
  { mkPool 1 2 10 with
    idle := [{ db := 0, createdAt := 0 }]
    activeCount := 1
    creationTimes := [(3, 90)]
    totalCreated := 2 }

/-- Witness for C9: a failing factory call on stalePool surfaces the
error and leaves activeCount, totalCreated and creationTimes intact. -/
theorem factory_failure_atomic_witness :
    acquire stalePool 100 7 false =
      (.creationFailed,
        { stalePool with idle := [], totalRecycled := 1 }) ∧
      (acquire stalePool 100 7 false).2.activeCount = stalePool.activeCount ∧
      (acquire stalePool 100 7 false).2.totalCreated = stalePool.totalCreated ∧
      (acquire stalePool 100 7 false).2.creationTimes = stalePool.creationTimes :=
  factory_failure_atomic stalePool 100 7 rfl (by decide) (by decide)

/-- Claim C10: a healthy release of a handle the pool is not tracking
(never acquired, or already released) still decrements activeCount —
which therefore goes negative when activeCount was 0 — and pushes the
handle onto idle with its creation time stamped as the release time, so
an immediate acquire hands that very handle out again. -/
theorem release_unknown_handle (s : PoolState) (hdb now freshDb : Nat)
    (hopen : s.closed = false)
    (hmiss : ctGet s.creationTimes hdb = none)
    (hmin : 0 < s.minSize) :
    (release s hdb true now).activeCount = s.activeCount - 1 ∧
      (s.activeCount = 0 → (release s hdb true now).activeCount < 0) ∧
      (release s hdb true now).idle.head? =
        some { db := hdb, createdAt := now } ∧
      (acquire (release s hdb true now) now freshDb true).1 = .ok hdb := by
  obtain ⟨m, hm⟩ : ∃ m, s.minSize = m + 1 := ⟨s.minSize - 1, by omega⟩
  have hrel : release s hdb true now =
      { s with
        activeCount := s.activeCount - 1
        creationTimes := ctErase s.creationTimes hdb
        idle := { db := hdb, createdAt := now } :: s.idle.take m
        totalRecycled := s.totalRecycled + (s.idle.length + 1 - s.minSize) } := by
    simp [release, hopen, hmiss, hm, List.take_succ_cons]
  have hexp : isExpired s.recycleTTLMs now { db := hdb, createdAt := now } = false := by
    simp [isExpired]
  refine ⟨by rw [hrel], ?_, by rw [hrel]; rfl, ?_⟩
  · intro h0
    rw [hrel]
    show s.activeCount - 1 < 0
    omega
  · rw [hrel, acquire, if_neg (by simp [hopen]), acquireFromIdle, if_neg (by simp [hexp])]

/-- Witness for C10: releasing the untracked handle 42 into demoPool
drives activeCount from 1 to 0, stamps it createdAt = 300, and the next
acquire returns 42 again. -/
theorem release_unknown_handle_witness :
    (release demoPool 42 true 300).activeCount = demoPool.activeCount - 1 ∧
      (demoPool.activeCount = 0 → (release demoPool 42 true 300).activeCount < 0) ∧
      (release demoPool 42 true 300).idle.head? =
        some { db := 42, createdAt := 300 } ∧
      (acquire (release demoPool 42 true 300) 300 99 true).1 = .ok 42 :=
  release_unknown_handle demoPool 42 300 99 rfl (by decide) (by decide)

/-! ### Well-formed operation sequences and the pool invariant

Claims C2 and C5 quantify over `any sequence of pool operations`.  Taken
literally that includes releasing a handle the pool never handed out —
which the code accepts and which breaks both claims (see the
counterexamples below and claim C10).  The amended claims restrict to
legal usage: warmup only on a pool holding no instances, acquire given a
handle id the pool is not already tracking, release only of a
currently-checked-out handle. -/

def legalOp (s : PoolState) : PoolOp → Prop
  | .warmupOp _ _ => s.idle = [] ∧ s.creationTimes = []
  | .acquireOp _ freshDb _ => ctGet s.creationTimes freshDb = none ∧ freshDb ∉ idleDbs s
  | .releaseOp db _ _ => ctGet s.creationTimes db ≠ none
  | .drainOp => True

def legalTrace : PoolState → List PoolOp → Prop
  | _, [] => True
  | s, op :: ops => legalOp s op ∧ legalTrace (step s op) ops

/-- The pool's internal consistency invariant: activeCount counts the
checked-out handles recorded in creationTimes, tracked keys are
distinct, idle handles are distinct and never simultaneously checked
out, and the population bound active + idle ≤ maxSize holds. -/
structure Inv (s : PoolState) : Prop where
  active_eq : s.activeCount = (s.creationTimes.length : Int)
  keys_nodup : (s.creationTimes.map Prod.fst).Nodup
  idle_nodup : (idleDbs s).Nodup
  idle_fresh : ∀ i ∈ s.idle, ctGet s.creationTimes i.db = none
  total_le : s.activeCount + (s.idle.length : Int) ≤ (s.maxSize : Int)
  min_le_max : s.minSize ≤ s.maxSize

/-- Counterexample to claim C2 as stated: a single healthy release of a
handle the pool never handed out is a pool operation, and it drives
activeCount to -1 < 0. -/
theorem active_count_goes_negative :
    (run (mkPool 1 1 1000) [PoolOp.releaseOp 0 true 5]).activeCount < 0 := by decide

/-- A pool with handle 7 checked out and nothing idle. -/
def heldPool : PoolState :=
  { mkPool 1 2 100 with activeCount := 1, creationTimes := [(7, 0)], totalCreated := 1 }

/-- Counterexample to claim C5 as stated: after release(7, false) the
sequence may continue with the (code-accepted) ill-formed operation
release(7, true), after which handle 7 sits in the idle set again. -/
theorem unhealthy_handle_reappears_in_idle :
    7 ∈ idleDbs (run heldPool
      [PoolOp.releaseOp 7 false 10, PoolOp.releaseOp 7 true 20]) := by decide

/-! Auxiliary lemmas about the creation-time map. -/

theorem ctGet_eq_none_iff (m : List (Nat × Nat)) (k : Nat) :
    ctGet m k = none ↔ ∀ p ∈ m, p.1 ≠ k := by
  simp [ctGet, List.find?_eq_none]

theorem ctGet_cons_ne (p : Nat × Nat) (m : List (Nat × Nat)) (k : Nat)
    (h : p.1 ≠ k) : ctGet (p :: m) k = ctGet m k := by
  unfold ctGet
  rw [List.find?_cons_of_neg]
  simp [h]

theorem ctErase_of_not_mem (m : List (Nat × Nat)) (k : Nat)
    (h : ctGet m k = none) : ctErase m k = m := by
  rw [ctGet_eq_none_iff] at h
  rw [ctErase, List.filter_eq_self]
  intro p hp
  simpa using h p hp

theorem ctSet_length (m : List (Nat × Nat)) (k v : Nat) (h : ctGet m k = none) :
    (ctSet m k v).length = m.length + 1 := by
  simp [ctSet, ctErase_of_not_mem m k h]

theorem ctGet_ctErase_self (m : List (Nat × Nat)) (k : Nat) :
    ctGet (ctErase m k) k = none := by
  rw [ctGet_eq_none_iff]
  intro p hp
  have := (List.mem_filter.mp hp).2
  simpa using this

theorem ctGet_ctErase_of_none (m : List (Nat × Nat)) (k j : Nat)
    (h : ctGet m j = none) : ctGet (ctErase m k) j = none := by
  rw [ctGet_eq_none_iff] at h ⊢
  intro p hp
  exact h p (List.mem_filter.mp hp).1

theorem ctErase_keys_sublist (m : List (Nat × Nat)) (k : Nat) :
    ((ctErase m k).map Prod.fst).Sublist (m.map Prod.fst) :=
  (List.filter_sublist m).map Prod.fst

theorem not_mem_keys_of_ctGet_none (m : List (Nat × Nat)) (k : Nat)
    (h : ctGet m k = none) : k ∉ m.map Prod.fst := by
  rw [ctGet_eq_none_iff] at h
  intro hmem
  obtain ⟨p, hp, hpk⟩ := List.mem_map.mp hmem
  exact h p hp hpk

theorem ctGet_none_of_not_mem_keys (m : List (Nat × Nat)) (k : Nat)
    (h : k ∉ m.map Prod.fst) : ctGet m k = none := by
  rw [ctGet_eq_none_iff]
  intro p hp hpk
  exact h (List.mem_map.mpr ⟨p, hp, hpk⟩)

theorem ctErase_length (m : List (Nat × Nat)) (k : Nat)
    (hk : ctGet m k ≠ none) (hnd : (m.map Prod.fst).Nodup) :
    (ctErase m k).length + 1 = m.length := by
  induction m with
  | nil => simp [ctGet] at hk
  | cons p m ih =>
    rw [List.map_cons, List.nodup_cons] at hnd
    by_cases hpk : p.1 = k
    · have hknm : ctGet m k = none :=
        ctGet_none_of_not_mem_keys m k (hpk ▸ hnd.1)
      have hrw : ctErase (p :: m) k = m := by
        have h1 : (p.1 != k) = false := by simp [hpk]
        rw [ctErase, List.filter_cons, h1]
        simp only [Bool.false_eq_true, if_false]
        exact ctErase_of_not_mem m k hknm
      rw [hrw, List.length_cons]
    · rw [ctGet_cons_ne p m k hpk] at hk
      have := ih hk hnd.2
      simp only [ctErase, List.filter_cons] at this ⊢
      have hne : (p.1 != k) = true := by simp [hpk]
      simp [hne] at this ⊢
      omega

/-! Auxiliary lemmas about warmup. -/

theorem warmupIdle_length (now base n : Nat) :
    (warmupIdle now base n).length = n := by
  induction n with
  | zero => rfl
  | succ n ih => simp [warmupIdle, ih]

theorem mem_warmupIdle_db (now base n x : Nat)
    (h : x ∈ (warmupIdle now base n).map PooledInstance.db) :
    base ≤ x ∧ x < base + n := by
  induction n with
  | zero => simp [warmupIdle] at h
  | succ n ih =>
    simp only [warmupIdle, List.map_cons, List.mem_cons] at h
    rcases h with rfl | h
    · omega
    · have := ih h
      omega

theorem warmupIdle_dbs_nodup (now base n : Nat) :
    ((warmupIdle now base n).map PooledInstance.db).Nodup := by
  induction n with
  | zero => simp [warmupIdle]
  | succ n ih =>
    simp only [warmupIdle, List.map_cons, List.nodup_cons]
    refine ⟨fun hmem => ?_, ih⟩
    have := mem_warmupIdle_db now base n _ hmem
    omega

/-! Invariant preservation. -/

theorem inv_clear_idle (s : PoolState) (hI : Inv s) (n : Nat) :
    Inv { s with idle := [], totalRecycled := n } := by
  refine ⟨hI.active_eq, hI.keys_nodup, by simp [idleDbs], ?_, ?_, hI.min_le_max⟩
  · intro i hi
    simp at hi
  · show s.activeCount + (([] : List PooledInstance).length : Int) ≤ (s.maxSize : Int)
    have h1 := hI.total_le
    simp only [List.length_nil, Nat.cast_zero, add_zero]
    omega

theorem inv_release_destroy (s : PoolState) (db : Nat) (hI : Inv s)
    (hheld : ctGet s.creationTimes db ≠ none) (n : Nat) :
    Inv { s with activeCount := s.activeCount - 1,
                 creationTimes := ctErase s.creationTimes db,
                 totalRecycled := n } := by
  have hlen := ctErase_length s.creationTimes db hheld hI.keys_nodup
  refine ⟨?_, ?_, hI.idle_nodup, ?_, ?_, hI.min_le_max⟩
  · show s.activeCount - 1 = ((ctErase s.creationTimes db).length : Int)
    have h1 := hI.active_eq
    omega
  · exact hI.keys_nodup.sublist (ctErase_keys_sublist _ _)
  · intro i hi
    exact ctGet_ctErase_of_none _ _ _ (hI.idle_fresh i hi)
  · show s.activeCount - 1 + (s.idle.length : Int) ≤ (s.maxSize : Int)
    have h1 := hI.total_le
    omega

theorem inv_release_idle (s : PoolState) (db c : Nat) (hI : Inv s)
    (hheld : ctGet s.creationTimes db ≠ none) (n : Nat) :
    Inv { s with activeCount := s.activeCount - 1,
                 creationTimes := ctErase s.creationTimes db,
                 idle := (({ db := db, createdAt := c } : PooledInstance) :: s.idle).take s.minSize,
                 totalRecycled := n } := by
  have hlen := ctErase_length s.creationTimes db hheld hI.keys_nodup
  have hdbni : db ∉ idleDbs s := by
    intro hmem
    obtain ⟨i, hi, hdbeq⟩ := List.mem_map.mp hmem
    exact hheld (hdbeq ▸ hI.idle_fresh i hi)
  have hpushnd :
      ((({ db := db, createdAt := c } : PooledInstance) :: s.idle).map
        PooledInstance.db).Nodup := by
    rw [List.map_cons, List.nodup_cons]
    exact ⟨hdbni, hI.idle_nodup⟩
  refine ⟨?_, ?_, ?_, ?_, ?_, hI.min_le_max⟩
  · show s.activeCount - 1 = ((ctErase s.creationTimes db).length : Int)
    have h1 := hI.active_eq
    omega
  · exact hI.keys_nodup.sublist (ctErase_keys_sublist _ _)
  · exact hpushnd.sublist ((List.take_sublist _ _).map _)
  · intro i hi
    have hip := (List.take_sublist _ _).subset hi
    rcases List.mem_cons.mp hip with rfl | hin
    · exact ctGet_ctErase_self _ _
    · exact ctGet_ctErase_of_none _ _ _ (hI.idle_fresh i hin)
  · show s.activeCount - 1 +
        (((({ db := db, createdAt := c } : PooledInstance) :: s.idle).take
          s.minSize).length : Int) ≤ (s.maxSize : Int)
    have h1 := hI.total_le
    rw [List.length_take, List.length_cons]
    omega

theorem inv_step (s : PoolState) (op : PoolOp) (hI : Inv s) (hL : legalOp s op) :
    Inv (step s op) := by
  cases op with
  | warmupOp now base =>
    obtain ⟨hidle, hct⟩ := hL
    have hact : s.activeCount = 0 := by
      rw [hI.active_eq, hct]
      rfl
    refine ⟨hI.active_eq, hI.keys_nodup, ?_, ?_, ?_, hI.min_le_max⟩
    · show ((warmupIdle now base s.minSize ++ s.idle).map PooledInstance.db).Nodup
      rw [hidle, List.append_nil]
      exact warmupIdle_dbs_nodup now base s.minSize
    · intro i hi
      show ctGet s.creationTimes i.db = none
      rw [hct]
      rfl
    · show s.activeCount +
          ((warmupIdle now base s.minSize ++ s.idle).length : Int) ≤ (s.maxSize : Int)
      rw [hidle, List.append_nil, warmupIdle_length, hact]
      have h1 := hI.min_le_max
      omega
  | acquireOp now freshDb factoryOk =>
    obtain ⟨hfn, hfi⟩ := hL
    show Inv (acquire s now freshDb factoryOk).2
    by_cases hc : s.closed = true
    · rw [acquire, if_pos hc]
      exact hI
    · rw [acquire, if_neg hc]
      rcases hAF : acquireFromIdle s.recycleTTLMs now s.idle 0 with ⟨o, rest, rc⟩
      cases o with
      | some inst =>
        obtain ⟨hsuf, -⟩ := acquireFromIdle_some _ _ _ _ _ _ _ hAF
        have hmem : inst ∈ s.idle := hsuf.subset (List.mem_cons_self _ _)
        have hinstf : ctGet s.creationTimes inst.db = none := hI.idle_fresh inst hmem
        have hersub : ctErase s.creationTimes inst.db = s.creationTimes :=
          ctErase_of_not_mem _ _ hinstf
        have hsubl : (inst :: rest).Sublist s.idle := hsuf.sublist
        have hdbnodup : ((inst :: rest).map PooledInstance.db).Nodup :=
          hI.idle_nodup.sublist (hsubl.map _)
        dsimp only
        refine ⟨?_, ?_, ?_, ?_, ?_, hI.min_le_max⟩
        · show s.activeCount + 1 =
              ((ctSet s.creationTimes inst.db inst.createdAt).length : Int)
          rw [ctSet_length _ _ _ hinstf]
          have h1 := hI.active_eq
          omega
        · show (((inst.db, inst.createdAt) ::
              ctErase s.creationTimes inst.db).map Prod.fst).Nodup
          rw [hersub, List.map_cons, List.nodup_cons]
          exact ⟨not_mem_keys_of_ctGet_none _ _ hinstf, hI.keys_nodup⟩
        · show (rest.map PooledInstance.db).Nodup
          rw [List.map_cons] at hdbnodup
          exact hdbnodup.of_cons
        · intro i hi
          show ctGet ((inst.db, inst.createdAt) ::
              ctErase s.creationTimes inst.db) i.db = none
          rw [hersub]
          have hne : inst.db ≠ i.db := by
            rw [List.map_cons, List.nodup_cons] at hdbnodup
            intro he
            exact hdbnodup.1 (he ▸ List.mem_map_of_mem _ hi)
          rw [ctGet_cons_ne _ _ _ hne]
          exact hI.idle_fresh i (hsubl.subset (List.mem_cons_of_mem _ hi))
        · show s.activeCount + 1 + (rest.length : Int) ≤ (s.maxSize : Int)
          have hlen : (inst :: rest).length ≤ s.idle.length := hsubl.length_le
          have h1 := hI.total_le
          simp only [List.length_cons] at hlen
          omega
      | none =>
        dsimp only
        by_cases hcap : s.activeCount < (s.maxSize : Int)
        · rw [if_pos hcap]
          cases factoryOk with
          | true =>
            rw [if_pos rfl]
            refine ⟨?_, ?_, by simp [idleDbs], ?_, ?_, hI.min_le_max⟩
            · show s.activeCount + 1 =
                  ((ctSet s.creationTimes freshDb now).length : Int)
              rw [ctSet_length _ _ _ hfn]
              have h1 := hI.active_eq
              omega
            · show (((freshDb, now) :: ctErase s.creationTimes freshDb).map
                  Prod.fst).Nodup
              rw [ctErase_of_not_mem _ _ hfn, List.map_cons, List.nodup_cons]
              exact ⟨not_mem_keys_of_ctGet_none _ _ hfn, hI.keys_nodup⟩
            · intro i hi
              simp at hi
            · show s.activeCount + 1 +
                  (([] : List PooledInstance).length : Int) ≤ (s.maxSize : Int)
              simp only [List.length_nil, Nat.cast_zero, add_zero]
              omega
          | false =>
            rw [if_neg (by simp)]
            exact inv_clear_idle s hI _
        · rw [if_neg hcap]
          exact inv_clear_idle s hI _
  | releaseOp db healthy now =>
    have hheld : ctGet s.creationTimes db ≠ none := hL
    show Inv (release s db healthy now)
    cases healthy with
    | false =>
      have hrel : release s db false now =
          { s with activeCount := s.activeCount - 1,
                   creationTimes := ctErase s.creationTimes db,
                   totalRecycled := s.totalRecycled + 1 } := by
        simp [release]
      rw [hrel]
      exact inv_release_destroy s db hI hheld _
    | true =>
      by_cases hc : s.closed = true
      · have hrel : release s db true now =
            { s with activeCount := s.activeCount - 1,
                     creationTimes := ctErase s.creationTimes db,
                     totalRecycled := s.totalRecycled } := by
          simp [release, hc]
        rw [hrel]
        exact inv_release_destroy s db hI hheld _
      · have hopen : s.closed = false := by simpa using hc
        have hrel := (release_healthy_spec s db now hopen).1
        rw [hrel]
        exact inv_release_idle s db _ hI hheld _
  | drainOp =>
    show Inv (drain s)
    refine ⟨hI.active_eq, hI.keys_nodup, by simp [idleDbs, drain], ?_, ?_,
      hI.min_le_max⟩
    · intro i hi
      simp [drain] at hi
    · show s.activeCount + (([] : List PooledInstance).length : Int) ≤ (s.maxSize : Int)
      have h1 := hI.total_le
      simp only [List.length_nil, Nat.cast_zero, add_zero]
      omega

theorem inv_run (s : PoolState) (ops : List PoolOp) (hI : Inv s)
    (hL : legalTrace s ops) : Inv (run s ops) := by
  induction ops generalizing s with
  | nil => exact hI
  | cons op ops ih => exact ih (step s op) (inv_step s op hI hL.1) hL.2

theorem legalTrace_append_left (s : PoolState) (pre suf : List PoolOp)
    (h : legalTrace s (pre ++ suf)) : legalTrace s pre := by
  induction pre generalizing s with
  | nil => trivial
  | cons op ops ih => exact ⟨h.1, ih (step s op) h.2⟩

/-- A freshly constructed pool with minSize ≤ maxSize satisfies the
invariant. -/
theorem inv_mkPool (minSize maxSize recycleTTLMs : Nat) (h : minSize ≤ maxSize) :
    Inv (mkPool minSize maxSize recycleTTLMs) := by
  refine ⟨rfl, by simp [mkPool], by simp [idleDbs, mkPool], ?_, by simp [mkPool], h⟩
  intro i hi
  simp [mkPool] at hi

/-- Claim C2 (amended to well-formed usage): starting from any state
satisfying the pool invariant (in particular a fresh pool with
minSize ≤ maxSize), along any legal operation sequence — warmup only on
a pool holding no instances, acquire with an untracked fresh handle id,
release only of checked-out handles — every observable point (every
prefix of the sequence) satisfies 0 ≤ activeCount ≤ maxSize. -/
theorem active_count_bounds (s : PoolState) (ops pre suf : List PoolOp)
    (hI : Inv s) (hL : legalTrace s ops) (hsplit : ops = pre ++ suf) :
    0 ≤ (run s pre).activeCount ∧
      (run s pre).activeCount ≤ ((run s pre).maxSize : Int) := by
  subst hsplit
  have hInv := inv_run s pre hI (legalTrace_append_left s pre suf hL)
  constructor
  · rw [hInv.active_eq]
    exact Int.natCast_nonneg _
  · have h1 := hInv.total_le
    omega

/-- Witness for C2 (amended): a warmup followed by an acquire on a
fresh 1/2 pool keeps activeCount within [0, maxSize] at the observable
point after those two operations. -/
theorem active_count_bounds_witness :
    0 ≤ (run (mkPool 1 2 100)
        [PoolOp.warmupOp 0 0, PoolOp.acquireOp 5 77 true]).activeCount ∧
      (run (mkPool 1 2 100)
        [PoolOp.warmupOp 0 0, PoolOp.acquireOp 5 77 true]).activeCount ≤
        ((run (mkPool 1 2 100)
          [PoolOp.warmupOp 0 0, PoolOp.acquireOp 5 77 true]).maxSize : Int) :=
  active_count_bounds (mkPool 1 2 100)
    [PoolOp.warmupOp 0 0, PoolOp.acquireOp 5 77 true, PoolOp.releaseOp 0 true 6]
    [PoolOp.warmupOp 0 0, PoolOp.acquireOp 5 77 true] [PoolOp.releaseOp 0 true 6]
    (inv_mkPool 1 2 100 (by decide))
    ⟨⟨rfl, rfl⟩, ⟨by decide, by decide⟩,
      ⟨by
        show ctGet (step (step (mkPool 1 2 100) (PoolOp.warmupOp 0 0))
          (PoolOp.acquireOp 5 77 true)).creationTimes 0 ≠ none
        decide, trivial⟩⟩
    rfl

/-! ### Claim C5: unhealthy handles are never recycled

The handle of a destroyed instance exists only as a model-level id, so
we must additionally say that no later operation creates a brand-new
instance that happens to carry the same id (in the real program the
factory always returns a fresh object). -/

/-- The operation does not create a new instance carrying handle id h:
warmup creates ids base, base+1, … and acquire may create freshDb. -/
def opAvoids (h : Nat) : PoolOp → Prop
  | .warmupOp _ base => h < base
  | .acquireOp _ freshDb _ => freshDb ≠ h
  | .releaseOp _ _ _ => True
  | .drainOp => True

/-- Handle h is nowhere in the pool: neither idle nor checked out. -/
def Untracked (h : Nat) (s : PoolState) : Prop :=
  h ∉ idleDbs s ∧ ctGet s.creationTimes h = none

theorem untracked_step (s : PoolState) (op : PoolOp) (h : Nat)
    (hU : Untracked h s) (hL : legalOp s op) (hA : opAvoids h op) :
    Untracked h (step s op) := by
  obtain ⟨hUi, hUc⟩ := hU
  cases op with
  | warmupOp now base =>
    have hbase : h < base := hA
    constructor
    · show h ∉ (warmupIdle now base s.minSize ++ s.idle).map PooledInstance.db
      rw [List.map_append, List.mem_append]
      rintro (hmem | hmem)
      · have := mem_warmupIdle_db now base s.minSize h hmem
        omega
      · exact hUi hmem
    · exact hUc
  | acquireOp now freshDb factoryOk =>
    have hfresh : freshDb ≠ h := hA
    show Untracked h (acquire s now freshDb factoryOk).2
    by_cases hc : s.closed = true
    · rw [acquire, if_pos hc]
      exact ⟨hUi, hUc⟩
    · rw [acquire, if_neg hc]
      rcases hAF : acquireFromIdle s.recycleTTLMs now s.idle 0 with ⟨o, rest, rc⟩
      cases o with
      | some inst =>
        obtain ⟨hsuf, -⟩ := acquireFromIdle_some _ _ _ _ _ _ _ hAF
        have hmem : inst ∈ s.idle := hsuf.subset (List.mem_cons_self _ _)
        have hne : inst.db ≠ h := fun he => hUi (he ▸ List.mem_map_of_mem _ hmem)
        dsimp only
        constructor
        · show h ∉ rest.map PooledInstance.db
          intro hmem2
          obtain ⟨i, hi, hieq⟩ := List.mem_map.mp hmem2
          exact hUi (hieq ▸ List.mem_map_of_mem _
            (hsuf.subset (List.mem_cons_of_mem _ hi)))
        · show ctGet ((inst.db, inst.createdAt) ::
              ctErase s.creationTimes inst.db) h = none
          rw [ctGet_cons_ne _ _ _ hne]
          exact ctGet_ctErase_of_none _ _ _ hUc
      | none =>
        dsimp only
        by_cases hcap : s.activeCount < (s.maxSize : Int)
        · rw [if_pos hcap]
          cases factoryOk with
          | true =>
            rw [if_pos rfl]
            refine ⟨by simp [idleDbs], ?_⟩
            show ctGet ((freshDb, now) :: ctErase s.creationTimes freshDb) h = none
            rw [ctGet_cons_ne _ _ _ hfresh]
            exact ctGet_ctErase_of_none _ _ _ hUc
          | false =>
            rw [if_neg (by simp)]
            exact ⟨by simp [idleDbs], hUc⟩
        · rw [if_neg hcap]
          exact ⟨by simp [idleDbs], hUc⟩
  | releaseOp db healthy now =>
    have hheld : ctGet s.creationTimes db ≠ none := hL
    have hne : db ≠ h := fun he => hheld (he ▸ hUc)
    show Untracked h (release s db healthy now)
    cases healthy with
    | false =>
      have hrel : release s db false now =
          { s with activeCount := s.activeCount - 1,
                   creationTimes := ctErase s.creationTimes db,
                   totalRecycled := s.totalRecycled + 1 } := by
        simp [release]
      rw [hrel]
      exact ⟨hUi, ctGet_ctErase_of_none _ _ _ hUc⟩
    | true =>
      by_cases hc : s.closed = true
      · have hrel : release s db true now =
            { s with activeCount := s.activeCount - 1,
                     creationTimes := ctErase s.creationTimes db,
                     totalRecycled := s.totalRecycled } := by
          simp [release, hc]
        rw [hrel]
        exact ⟨hUi, ctGet_ctErase_of_none _ _ _ hUc⟩
      · have hopen : s.closed = false := by simpa using hc
        rw [(release_healthy_spec s db now hopen).1]
        constructor
        · intro hmem
          simp only [idleDbs] at hmem
          obtain ⟨i, hi, hieq⟩ := List.mem_map.mp hmem
          have hip := (List.take_sublist _ _).subset hi
          rcases List.mem_cons.mp hip with rfl | hin
          · exact hne hieq
          · exact hUi (hieq ▸ List.mem_map_of_mem _ hin)
        · exact ctGet_ctErase_of_none _ _ _ hUc
  | drainOp =>
    exact ⟨by simp [idleDbs, step, drain], hUc⟩

theorem untracked_run (s : PoolState) (h : Nat) (ops : List PoolOp)
    (hU : Untracked h s) (hL : legalTrace s ops)
    (hA : ∀ op ∈ ops, opAvoids h op) :
    Untracked h (run s ops) := by
  induction ops generalizing s with
  | nil => exact hU
  | cons op ops ih =>
    exact ih (step s op)
      (untracked_step s op h hU hL.1 (hA op (List.mem_cons_self _ _)))
      hL.2 (fun op2 hop2 => hA op2 (List.mem_cons_of_mem _ hop2))

/-- If acquire hands out a handle, it is either the idle instance found
on the stack or the freshly created one. -/
theorem acquire_ok_cases (s : PoolState) (now freshDb db : Nat) (factoryOk : Bool)
    (h : (acquire s now freshDb factoryOk).1 = .ok db) :
    db = freshDb ∨ db ∈ idleDbs s := by
  by_cases hc : s.closed = true
  · rw [acquire, if_pos hc] at h
    simp at h
  · rw [acquire, if_neg hc] at h
    rcases hAF : acquireFromIdle s.recycleTTLMs now s.idle 0 with ⟨o, rest, rc⟩
    rw [hAF] at h
    cases o with
    | some inst =>
      dsimp only at h
      obtain ⟨hsuf, -⟩ := acquireFromIdle_some _ _ _ _ _ _ _ hAF
      have hmem : inst ∈ s.idle := hsuf.subset (List.mem_cons_self _ _)
      rw [AcquireResult.ok.injEq] at h
      exact Or.inr (h ▸ List.mem_map_of_mem _ hmem)
    | none =>
      dsimp only at h
      by_cases hcap : s.activeCount < (s.maxSize : Int)
      · rw [if_pos hcap] at h
        cases factoryOk with
        | true =>
          rw [if_pos rfl] at h
          rw [AcquireResult.ok.injEq] at h
          exact Or.inl h.symm
        | false =>
          rw [if_neg (by simp)] at h
          simp at h
      · rw [if_neg hcap] at h
        simp at h

/-- Claim C5 (amended to well-formed usage and fresh factory handles):
starting from an invariant-satisfying pool with handle h checked out,
after release(h, false) the handle h never appears in the idle set at
any later observable point, and no later acquire ever returns h again —
along any legal continuation whose operations do not mint a brand-new
instance with the same id h. -/
theorem unhealthy_never_recycled (s : PoolState) (h tRel : Nat) (ops : List PoolOp)
    (hI : Inv s) (hHeld : ctGet s.creationTimes h ≠ none)
    (hL : legalTrace (release s h false tRel) ops)
    (hA : ∀ op ∈ ops, opAvoids h op) :
    (∀ pre suf, ops = pre ++ suf →
        h ∉ idleDbs (run (release s h false tRel) pre)) ∧
      (∀ pre now freshDb factoryOk suf,
          ops = pre ++ PoolOp.acquireOp now freshDb factoryOk :: suf →
          (acquire (run (release s h false tRel) pre) now freshDb factoryOk).1 ≠
            .ok h) := by
  have hrel : release s h false tRel =
      { s with activeCount := s.activeCount - 1,
               creationTimes := ctErase s.creationTimes h,
               totalRecycled := s.totalRecycled + 1 } := by
    simp [release]
  have hU0 : Untracked h (release s h false tRel) := by
    rw [hrel]
    constructor
    · show h ∉ idleDbs s
      intro hmem
      obtain ⟨i, hi, hieq⟩ := List.mem_map.mp hmem
      exact hHeld (hieq ▸ hI.idle_fresh i hi)
    · exact ctGet_ctErase_self _ _
  have hUpre : ∀ pre suf, ops = pre ++ suf →
      Untracked h (run (release s h false tRel) pre) := by
    intro pre suf hsplit
    subst hsplit
    exact untracked_run _ h pre hU0
      (legalTrace_append_left _ pre suf hL)
      (fun op hop => hA op (List.mem_append_left _ hop))
  constructor
  · intro pre suf hsplit
    exact (hUpre pre suf hsplit).1
  · intro pre now freshDb factoryOk suf hsplit
    intro hok
    have hU := hUpre pre (PoolOp.acquireOp now freshDb factoryOk :: suf) hsplit
    have hAop : opAvoids h (PoolOp.acquireOp now freshDb factoryOk) := by
      refine hA _ ?_
      rw [hsplit]
      exact List.mem_append_right _ (List.mem_cons_self _ _)
    have hfresh : freshDb ≠ h := hAop
    rcases acquire_ok_cases _ now freshDb h factoryOk hok with heq | hmem
    · exact hfresh heq.symm
    · exact hU.1 hmem

/-- Witness for C5 (amended): with handle 7 checked out of heldPool and
then released unhealthy, a legal continuation that creates fresh handle
8 and releases it healthily never shows 7 in the idle set. -/
theorem unhealthy_never_recycled_witness :
    7 ∉ idleDbs (run (release heldPool 7 false 1)
      [PoolOp.acquireOp 5 8 true, PoolOp.releaseOp 8 true 6]) :=
  (unhealthy_never_recycled heldPool 7 1
      [PoolOp.acquireOp 5 8 true, PoolOp.releaseOp 8 true 6]
      ⟨by decide, by decide, by decide, by decide, by decide, by decide⟩
      (by decide)
      ⟨⟨by decide, by decide⟩,
        ⟨by
          show ctGet (step (release heldPool 7 false 1)
            (PoolOp.acquireOp 5 8 true)).creationTimes 8 ≠ none
          decide, trivial⟩⟩
      (by
        intro op hop
        rcases List.mem_cons.mp hop with rfl | hop2
        · exact (by decide : (8 : Nat) ≠ 7)
        · rcases List.mem_cons.mp hop2 with rfl | hop3
          · trivial
          · simp at hop3)).1
    [PoolOp.acquireOp 5 8 true, PoolOp.releaseOp 8 true 6] [] (by simp)

end Sidecar
